import Mathlib

/-!
Verification development for `src/filter.py` of the mllm-filter repository.

The file shallowly embeds the confidence-gated classification loop
(`vision_classify`, `text_classify`) and the dataset filter drivers
(`vision_filter`, `text_filter`).  Logits are modelled as rational numbers
(`ℚ`); the model is an abstract function from the current encoded input to the
last-position logits row (the source asserts batch size 1 in its docstring, so
the batch dimension is collapsed).  Fallible code paths (python exceptions:
`IndexError` from `torch.topk`/indexing, `TypeError` from assigning a string
key into a bare tensor, `ZeroDivisionError` in the threshold transform) are
modelled with `Option`, `none` standing for a raised exception.
-/

namespace MllmFilter

/-! ## Top-k over a logits row

`torch.topk(logits, topk, dim=-1).indices[0].tolist()` on a `(1, vocab)` row:
the indices of the `k` largest logits, largest first.  torch leaves the order
of ties unspecified; here ties are broken stably by lower index first. -/

/-- Insert index `i` into a list of indices sorted by descending logit value,
keeping earlier-inserted indices first on ties. -/
def insertIdxDesc (logits : List ℚ) (i : Nat) : List Nat → List Nat
  | [] => [i]
  | j :: js =>
    if logits.getD i 0 ≤ logits.getD j 0 then j :: insertIdxDesc logits i js
    else i :: j :: js

/-- All vocabulary indices of a logits row, sorted by descending logit value
(ties: lower index first). -/
def sortIdxDesc (logits : List ℚ) : List Nat :=
  (List.range logits.length).foldl (fun acc i => insertIdxDesc logits i acc) []

/-- The indices of the `k` largest logits, as `torch.topk(...).indices[0]`. -/
def topkIndices (logits : List ℚ) (k : Nat) : List Nat :=
  (sortIdxDesc logits).take k

/-! ## Encoded inputs (data model) -/

/-- The `EncodedInput` of the vision pipeline: the processor output carried by
`vision_classify`, with the three sequences that grow along the append
dimension.  `cross_attention_mask` holds, per sequence position, a mask per
image over the 4 tiles (the batch dimension is collapsed, see module header). -/
structure VEncodedInput where
  input_ids : List Nat
  attention_mask : List Nat
  cross_attention_mask : List (List (List Nat))
deriving Repr, DecidableEq

/-- The append performed by the "not ready" branch of `vision_classify`
(filter.py lines 142-148): the chosen token id, a `1` on the attention mask,
and the fixed cross-attention unit `[1, 1, 0, 0]`. -/
def vAppend (enc : VEncodedInput) (t : Nat) : VEncodedInput :=
  { input_ids := enc.input_ids ++ [t]
    attention_mask := enc.attention_mask ++ [1]
    cross_attention_mask := enc.cross_attention_mask ++ [[[1, 1, 0, 0]]] }

/-- Outcome of a classifier call that returned (rather than raised):
the boolean prediction, whether the attempt-limit message was reported
(the `print` before the final `return True`), the final state of the
caller-supplied input, and the number of forward passes performed
(instrumentation; the source performs one `model(...)` call per loop
iteration). -/
structure ClassifyTrace (σ : Type) where
  prediction : Bool
  limitReached : Bool
  final : σ
  passes : Nat
deriving Repr, DecidableEq

/-- The scoring step shared verbatim by `vision_classify` (lines 152-157) and
`text_classify` (lines 189-194): extract the logits at `id_1` and `id_0`,
compare their difference against the required logit difference with `>=`,
return the boolean.  An id outside the vocabulary raises (`none`), as torch
fancy indexing would. -/
def scoreStep {σ : Type} (logits : List ℚ) (req_logit_diff : ℚ)
    (id_1 id_0 : Nat) (enc : σ) : Option (ClassifyTrace σ) :=
  if h : id_1 < logits.length ∧ id_0 < logits.length then
    some ⟨decide (logits.get ⟨id_1, h.1⟩ - logits.get ⟨id_0, h.2⟩ ≥ req_logit_diff),
      false, enc, 1⟩
  else none

/-! ## vision_classify (filter.py lines 122-160) -/

/-- The `for _ in range(steps)` loop of `vision_classify`, by remaining fuel.
`bounding` is the truthiness of `max_steps` guarding the top-k readiness
check.  The guard `0 < topk ∧ topk ≤ logits.length` models the exceptions of
the not-ready branch: `torch.topk` raises for `topk > vocab`, and
`topk_ids[0]` raises for an empty top-k (`topk = 0`, which can never be
ready).  Exhausting the fuel is lines 159-160: report the attempt limit and
return `True`. -/
def vcLoop (model : VEncodedInput → List ℚ) (req_logit_diff : ℚ)
    (id_1 id_0 : Nat) (bounding : Bool) (topk : Nat) :
    Nat → VEncodedInput → Option (ClassifyTrace VEncodedInput)
  | 0, enc => some ⟨true, true, enc, 0⟩
  | n + 1, enc =>
    let logits := model enc
    if bounding then
      if 0 < topk ∧ topk ≤ logits.length then
        let topk_ids := topkIndices logits topk
        if id_1 ∉ topk_ids ∧ id_0 ∉ topk_ids then
          match vcLoop model req_logit_diff id_1 id_0 bounding topk n
              (vAppend enc (topk_ids.headD 0)) with
          | none => none
          | some t => some { t with passes := t.passes + 1 }
        else scoreStep logits req_logit_diff id_1 id_0 enc
      else none
    else scoreStep logits req_logit_diff id_1 id_0 enc

/-- `vision_classify(model, input, req_logit_diff, id_1, id_0, max_steps, topk)`.
`max_steps = none` is python `None`: `steps = 1 if max_steps is None else
max_steps`, and `if max_steps:` is then falsy, disabling the readiness check
(`bounding = false`).  `some 0` is also falsy but runs zero iterations. -/
def vision_classify (model : VEncodedInput → List ℚ) (input : VEncodedInput)
    (req_logit_diff : ℚ) (id_1 id_0 : Nat) (max_steps : Option Nat)
    (topk : Nat) : Option (ClassifyTrace VEncodedInput) :=
  let steps := match max_steps with | none => 1 | some k => k
  let bounding := match max_steps with | none => false | some k => decide (k ≠ 0)
  vcLoop model req_logit_diff id_1 id_0 bounding topk steps input

/-! ## text_classify (filter.py lines 162-197)

`text_filter` (line 117) passes `tokenizer.apply_chat_template(...,
return_tensors="pt")` — a bare token tensor, not a mapping.  The not-ready
branch (lines 183-186) nevertheless evaluates `input["input_ids"]`, which on a
bare tensor raises (string indexing of a tensor); modelled as `none`.  Hence
the loop body can never reach a second iteration. -/

/-- The `for _ in range(steps)` loop of `text_classify`, by remaining fuel.
The input is the bare token tensor (one row, batch collapsed).  The not-ready
branch raises instead of appending, so no recursive call occurs. -/
def tcLoop (model : List Nat → List ℚ) (req_logit_diff : ℚ)
    (id_1 id_0 : Nat) (bounding : Bool) (topk : Nat) :
    Nat → List Nat → Option (ClassifyTrace (List Nat))
  | 0, inp => some ⟨true, true, inp, 0⟩
  | _ + 1, inp =>
    let logits := model inp
    if bounding then
      if 0 < topk ∧ topk ≤ logits.length then
        let topk_ids := topkIndices logits topk
        if id_1 ∉ topk_ids ∧ id_0 ∉ topk_ids then
          none
        else scoreStep logits req_logit_diff id_1 id_0 inp
      else none
    else scoreStep logits req_logit_diff id_1 id_0 inp

/-- `text_classify(model, input, req_logit_diff, id_1, id_0, max_steps, topk)`
with a bare token tensor as `input`. -/
def text_classify (model : List Nat → List ℚ) (input : List Nat)
    (req_logit_diff : ℚ) (id_1 id_0 : Nat) (max_steps : Option Nat)
    (topk : Nat) : Option (ClassifyTrace (List Nat)) :=
  let steps := match max_steps with | none => 1 | some k => k
  let bounding := match max_steps with | none => false | some k => decide (k ≠ 0)
  tcLoop model req_logit_diff id_1 id_0 bounding topk steps input

/-! ## Dataset filter drivers (filter.py lines 44-120)

The surrounding Provider machinery (huggingface processor/tokenizer, prompt
templating, `Image.open`, `processor(...)`) is the external collaborator: a
dataset row is modelled with its tabular cells plus the outcome of resolving
and encoding it.  In vision mode that outcome is either an `EncodedInput` or
one of the two caught exceptions (`FileNotFoundError` → missing,
`UnidentifiedImageError` → corrupted); in text mode it is the bare token
tensor that `apply_chat_template` returns. -/

/-- Outcome of `Image.open(...)` + `processor(...)` for one vision row. -/
inductive VLoad where
  | ok (enc : VEncodedInput)
  | missing
  | corrupted
deriving Repr, DecidableEq

/-- Whether the row's image failed to resolve or decode. -/
def VLoad.isBad : VLoad → Bool
  | VLoad.ok _ => false
  | VLoad.missing => true
  | VLoad.corrupted => true

/-- One row of the vision-mode dataset: its tabular cells (what `to_csv`
serializes) and its image-resolution/encoding outcome. -/
structure VRow where
  cells : List String
  load : VLoad
deriving Repr, DecidableEq

/-- One row of the text-mode dataset: its tabular cells and the encoded
prompt (a bare token tensor). -/
structure TRow where
  cells : List String
  enc : List Nat
deriving Repr, DecidableEq

/-- `metadata.iloc[:len(results)][results]`: boolean-mask selection of a row
prefix, preserving order. -/
def maskSelect {α : Type} : List α → List Bool → List α
  | x :: xs, b :: bs => if b then x :: maskSelect xs bs else maskSelect xs bs
  | _, _ => []

/-- `DataFrame.to_csv(output_path, sep=delim, index=False, header=has_header,
encoding="utf-8")`: delimiter-joined cells, one line per row, with the column
names as a leading line when `has_header` (no index column; quoting of cells
containing the delimiter is not modelled). -/
def toCsv (delim : String) (has_header : Bool) (colNames : List String)
    (rowCells : List (List String)) : String :=
  String.intercalate "\n"
    ((if has_header then [String.intercalate delim colNames] else []) ++
      rowCells.map (String.intercalate delim))

/-- The run-long configuration of `vision_filter` after its prelude:
the callable model, the column names of `metadata`, the checkpoint format
options, the required logit difference computed once from the threshold, the
token ids resolved once from the tokenizer, and the loop options. -/
structure VFCfg where
  model : VEncodedInput → List ℚ
  colNames : List String
  has_header : Bool
  delim : String
  req_logit_diff : ℚ
  true_token_id : Nat
  false_token_id : Nat
  save_every : Option Nat
  max_steps : Option Nat
  topk : Nat
  keep_corrupted : Bool

/-- The mutable driver state across rows, plus instrumentation of observable
effects: `file` is the current content of the checkpoint file (each write
overwrites), `writes` logs each checkpoint write as (number of accumulated
results at write time, written content), and `classifier_calls` counts
invocations of the Confidence Classifier. -/
structure VFState where
  results : List Bool
  since_last_save : Nat
  missing_or_corrupted : Nat
  file : Option String
  writes : List (Nat × String)
  classifier_calls : Nat
deriving Repr, DecidableEq

/-- The empty state at loop entry (filter.py lines 58-60). -/
def vfInit : VFState := ⟨[], 0, 0, none, [], 0⟩

/-- Truthiness of `save_every and since_last_save >= save_every`. -/
def checkpointDue (save_every : Option Nat) (since : Nat) : Bool :=
  match save_every with
  | none => false
  | some k => decide (k ≠ 0) && decide (since ≥ k)

/-- The serialized checkpoint content for an accumulated results prefix:
`metadata.iloc[:len(results)][results].to_csv(...)`. -/
def cpContentAt (cfg : VFCfg) (metadata : List VRow) (results : List Bool) : String :=
  toCsv cfg.delim cfg.has_header cfg.colNames
    ((maskSelect (metadata.take results.length) results).map VRow.cells)

/-- The checkpoint write (filter.py lines 63-67): serialize
`metadata.iloc[:len(results)][results]`, overwrite the output file, reset
the since-last-save counter to zero. -/
def vfCheckpoint (cfg : VFCfg) (metadata : List VRow) (st : VFState) : VFState :=
  let content := cpContentAt cfg metadata st.results
  { st with file := some content
            writes := st.writes ++ [(st.results.length, content)]
            since_last_save := 0 }

/-- The head of each driver iteration (filter.py lines 62-68): checkpoint if
due, then `since_last_save += 1`. -/
def vfPre (cfg : VFCfg) (metadata : List VRow) (st : VFState) : VFState :=
  let st1 := if checkpointDue cfg.save_every st.since_last_save then
      vfCheckpoint cfg metadata st
    else st
  { st1 with since_last_save := st1.since_last_save + 1 }

/-- The per-row loop of `vision_filter` (filter.py lines 61-88) over the rows
not yet processed; `metadata` is the whole dataset (the checkpoint write
slices it from the top).  `none` models an uncaught exception escaping the
loop (only a raising `vision_classify` call can produce one here). -/
def vfLoop (cfg : VFCfg) (metadata : List VRow) :
    List VRow → VFState → Option VFState
  | [], st => some st
  | row :: rest, st =>
    let st2 := vfPre cfg metadata st
    match row.load with
    | VLoad.ok enc =>
      match vision_classify cfg.model enc cfg.req_logit_diff cfg.true_token_id
          cfg.false_token_id cfg.max_steps cfg.topk with
      | none => none
      | some t =>
        vfLoop cfg metadata rest
          { st2 with results := st2.results ++ [t.prediction]
                     classifier_calls := st2.classifier_calls + 1 }
    | VLoad.missing =>
      vfLoop cfg metadata rest
        { st2 with missing_or_corrupted := st2.missing_or_corrupted + 1
                   results := st2.results ++ [cfg.keep_corrupted] }
    | VLoad.corrupted =>
      vfLoop cfg metadata rest
        { st2 with missing_or_corrupted := st2.missing_or_corrupted + 1
                   results := st2.results ++ [cfg.keep_corrupted] }

/-- `vision_filter` (filter.py lines 44-90).  The prelude computes
`req_logit_diff = torch.log(torch.tensor(threshold / (1 - threshold)))`: the
python division raises `ZeroDivisionError` exactly when `1 - threshold = 0`
(`none`); `torch.log` itself never raises (it yields `-inf`/`nan` for
nonpositive arguments), so it is abstracted as the caller-supplied function
`tlog`.  The token ids are resolved once by the external tokenizer and are
taken as the parameters `true_token_id`/`false_token_id`.  The source returns
`(results, missing_or_corrupted)`; the remaining state fields are
instrumentation of the run's observable effects. -/
def vision_filter (tlog : ℚ → ℚ) (model : VEncodedInput → List ℚ)
    (colNames : List String) (metadata : List VRow) (has_header : Bool)
    (delim : String) (threshold : ℚ) (save_every : Option Nat)
    (max_steps : Option Nat) (topk : Nat) (keep_corrupted : Bool)
    (true_token_id false_token_id : Nat) : Option VFState :=
  if 1 - threshold = 0 then none
  else
    vfLoop
      ⟨model, colNames, has_header, delim, tlog (threshold / (1 - threshold)),
        true_token_id, false_token_id, save_every, max_steps, topk,
        keep_corrupted⟩
      metadata metadata vfInit

/-- The run-long configuration of `text_filter` after its prelude (no
`keep_corrupted`: text mode has no image-resolution recovery). -/
structure TFCfg where
  model : List Nat → List ℚ
  colNames : List String
  has_header : Bool
  delim : String
  req_logit_diff : ℚ
  true_token_id : Nat
  false_token_id : Nat
  save_every : Option Nat
  max_steps : Option Nat
  topk : Nat

/-- The mutable driver state of `text_filter` (no missing/corrupted counter). -/
structure TFState where
  results : List Bool
  since_last_save : Nat
  file : Option String
  writes : List (Nat × String)
  classifier_calls : Nat
deriving Repr, DecidableEq

/-- The empty state at loop entry (filter.py lines 104-105). -/
def tfInit : TFState := ⟨[], 0, none, [], 0⟩

/-- The checkpoint write of `text_filter` (filter.py lines 108-112),
identical to the vision one. -/
def tfCheckpoint (cfg : TFCfg) (metadata : List TRow) (st : TFState) : TFState :=
  let content := toCsv cfg.delim cfg.has_header cfg.colNames
    ((maskSelect (metadata.take st.results.length) st.results).map TRow.cells)
  { st with file := some content
            writes := st.writes ++ [(st.results.length, content)]
            since_last_save := 0 }

/-- The head of each text-driver iteration (filter.py lines 107-113). -/
def tfPre (cfg : TFCfg) (metadata : List TRow) (st : TFState) : TFState :=
  let st1 := if checkpointDue cfg.save_every st.since_last_save then
      tfCheckpoint cfg metadata st
    else st
  { st1 with since_last_save := st1.since_last_save + 1 }

/-- The per-row loop of `text_filter` (filter.py lines 106-118): every row is
encoded and classified; the encoded input passed to `text_classify` is the
bare token tensor `row.enc`. -/
def tfLoop (cfg : TFCfg) (metadata : List TRow) :
    List TRow → TFState → Option TFState
  | [], st => some st
  | row :: rest, st =>
    let st2 := tfPre cfg metadata st
    match text_classify cfg.model row.enc cfg.req_logit_diff cfg.true_token_id
        cfg.false_token_id cfg.max_steps cfg.topk with
    | none => none
    | some t =>
      tfLoop cfg metadata rest
        { st2 with results := st2.results ++ [t.prediction]
                   classifier_calls := st2.classifier_calls + 1 }

/-- `text_filter` (filter.py lines 92-120); prelude as in `vision_filter`.
The source returns `results` alone (no corrupted count in text mode). -/
def text_filter (tlog : ℚ → ℚ) (model : List Nat → List ℚ)
    (colNames : List String) (metadata : List TRow) (has_header : Bool)
    (delim : String) (threshold : ℚ) (save_every : Option Nat)
    (max_steps : Option Nat) (topk : Nat)
    (true_token_id false_token_id : Nat) : Option TFState :=
  if 1 - threshold = 0 then none
  else
    tfLoop
      ⟨model, colNames, has_header, delim, tlog (threshold / (1 - threshold)),
        true_token_id, false_token_id, save_every, max_steps, topk⟩
      metadata metadata tfInit

/-! ## The threshold transform as a real function

`req_logit_diff = log(threshold / (1 - threshold))` is the natural-log
inverse sigmoid; its analytic properties are stated over `ℝ`. -/

/-- The inverse-sigmoid decision boundary `ln(t / (1 - t))` computed once per
filtering run from the confidence threshold (filter.py lines 55 and 101). -/
noncomputable def req_logit_diff (t : ℝ) : ℝ := Real.log (t / (1 - t))

/-! ## Derived predicates used to state the properties -/

/-- The state transformation of one "not ready" iteration of
`vision_classify`: append the highest-logit token (the head of the top-k
indices) with its mask units. -/
def vcAdvance (model : VEncodedInput → List ℚ) (topk : Nat)
    (enc : VEncodedInput) : VEncodedInput :=
  vAppend enc ((topkIndices (model enc) topk).headD 0)

/-- The model is judged "not ready to decide" at `enc`: the top-k computation
succeeds (`0 < topk ≤ vocab`) and neither target id is among the top-k. -/
def notReadyAt (model : VEncodedInput → List ℚ) (id_1 id_0 topk : Nat)
    (enc : VEncodedInput) : Bool :=
  decide (0 < topk) && decide (topk ≤ (model enc).length) &&
  decide (id_1 ∉ topkIndices (model enc) topk) &&
  decide (id_0 ∉ topkIndices (model enc) topk)

/-- The decision `vision_filter` accumulates for one row: `keep_corrupted`
when the image is missing or corrupted, otherwise the classifier's boolean
(`none` when the classifier raises). -/
def rowDecision (cfg : VFCfg) (row : VRow) : Option Bool :=
  match row.load with
  | VLoad.ok enc =>
    (vision_classify cfg.model enc cfg.req_logit_diff cfg.true_token_id
      cfg.false_token_id cfg.max_steps cfg.topk).map ClassifyTrace.prediction
  | VLoad.missing => some cfg.keep_corrupted
  | VLoad.corrupted => some cfg.keep_corrupted

/-- The per-row decisions of a vision run, `none` as soon as one row's
classification raises. -/
def expectedResults (cfg : VFCfg) : List VRow → Option (List Bool)
  | [] => some []
  | row :: rest =>
    match rowDecision cfg row, expectedResults cfg rest with
    | some d, some ds => some (d :: ds)
    | _, _ => none

/-- The decision `text_filter` accumulates for one row. -/
def rowDecisionT (cfg : TFCfg) (row : TRow) : Option Bool :=
  (text_classify cfg.model row.enc cfg.req_logit_diff cfg.true_token_id
    cfg.false_token_id cfg.max_steps cfg.topk).map ClassifyTrace.prediction

/-- The per-row decisions of a text run. -/
def expectedResultsT (cfg : TFCfg) : List TRow → Option (List Bool)
  | [] => some []
  | row :: rest =>
    match rowDecisionT cfg row, expectedResultsT cfg rest with
    | some d, some ds => some (d :: ds)
    | _, _ => none

/-- Closed form of the since-last-save counter after `m` processed rows, for
checkpoint interval `k`. -/
def sinceVal (k m : Nat) : Nat := if m = 0 then 0 else (m - 1) % k + 1

/-- Every logged checkpoint write happened after a positive multiple of `k`
processed rows and wrote exactly the kept subset of the processed prefix, in
the configured tabular format. -/
def writesOk (cfg : VFCfg) (metadata : List VRow) (k : Nat)
    (st : VFState) : Prop :=
  ∀ w ∈ st.writes, 0 < w.1 ∧ w.1 % k = 0 ∧ w.1 ≤ st.results.length ∧
    w.2 = toCsv cfg.delim cfg.has_header cfg.colNames
      ((maskSelect (metadata.take w.1) (st.results.take w.1)).map VRow.cells)

/-- Invariant of the vision driver's checkpoint machinery, for
`save_every = some k`. -/
def cpInv (cfg : VFCfg) (metadata : List VRow) (k : Nat)
    (st : VFState) : Prop :=
  st.since_last_save = sinceVal k st.results.length ∧
  writesOk cfg metadata k st ∧
  st.file = st.writes.getLast?.map Prod.snd

/-! ## Concrete fixtures (used to instantiate theorems at concrete inputs) -/

/-- A model that always puts `5` on token 0 and `2` on token 1: with
`topk = 1` token 0 is always in the top-k, and the logit difference
`5 - 2 = 3` clears a zero boundary. -/
def exModel : VEncodedInput → List ℚ := fun _ => [5, 2]

/-- A one-token encoded input. -/
def exEnc : VEncodedInput := ⟨[9], [1], [[[1, 1, 0, 0]]]⟩

/-- A four-row vision dataset: readable, missing, readable, corrupted. -/
def exRows : List VRow :=
  [⟨["a", "pa"], VLoad.ok exEnc⟩, ⟨["b", "pb"], VLoad.missing⟩,
   ⟨["c", "pc"], VLoad.ok exEnc⟩, ⟨["d", "pd"], VLoad.corrupted⟩]

/-- A vision run configuration: boundary `0`, target ids `0`/`1`,
checkpoint every 2 rows, `max_steps = 3`, `topk = 1`, discard corrupted. -/
def cfgW : VFCfg :=
  ⟨exModel, ["cap", "img"], true, "\t", 0, 0, 1, some 2, some 3, 1, false⟩

/-- The final state of running `cfgW` over `exRows`. -/
def stW : VFState :=
  ⟨[true, false, true, false], 2, 2, some "cap\timg\na\tpa",
    [(2, "cap\timg\na\tpa")], 2⟩

/-- A text model with the same logit profile as `exModel`. -/
def exTModel : List Nat → List ℚ := fun _ => [5, 2]

/-- A two-row text dataset. -/
def exTRows : List TRow := [⟨["a"], [3]⟩, ⟨["b"], [4]⟩]

/-- A text run configuration mirroring `cfgW`. -/
def tcfgW : TFCfg := ⟨exTModel, ["cap"], true, "\t", 0, 0, 1, some 2, some 3, 1⟩

/-- The final state of running `tcfgW` over `exTRows`. -/
def tstW : TFState := ⟨[true, true], 2, none, [], 2⟩

/-- A model under which neither target id `1` nor `2` is ever in the top-1
(the argmax is always token 0): every step of a bounded run appends. -/
def cexModel : VEncodedInput → List ℚ := fun _ => [5, 0, 0]

/-- Its text-mode counterpart. -/
def cexTModel : List Nat → List ℚ := fun _ => [5, 0, 0]

end MllmFilter

/-!
## Properties

The lemmas build up to one theorem per specified property; concrete fixture
instantiations accompany the parametric theorems.
-/

namespace MllmFilter

lemma scoreStep_pos {σ : Type} (logits : List ℚ) (req : ℚ) (id_1 id_0 : Nat) (enc : σ)
    (h1 : id_1 < logits.length) (h0 : id_0 < logits.length) :
    scoreStep logits req id_1 id_0 enc =
      some ⟨decide (logits.get ⟨id_1, h1⟩ - logits.get ⟨id_0, h0⟩ ≥ req), false, enc, 1⟩ := by
  unfold scoreStep
  rw [dif_pos ⟨h1, h0⟩]

lemma scoreStep_some {σ : Type} {logits : List ℚ} {req : ℚ} {id_1 id_0 : Nat} {enc : σ}
    {t : ClassifyTrace σ} (h : scoreStep logits req id_1 id_0 enc = some t) :
    t.final = enc ∧ t.passes = 1 ∧ t.limitReached = false := by
  unfold scoreStep at h
  split at h
  · cases h
    exact ⟨rfl, rfl, rfl⟩
  · exact Option.noConfusion h

lemma vcLoop_succ_unbounded (model : VEncodedInput → List ℚ) (req : ℚ)
    (id_1 id_0 topk n : Nat) (enc : VEncodedInput) :
    vcLoop model req id_1 id_0 false topk (n + 1) enc =
      scoreStep (model enc) req id_1 id_0 enc := rfl

lemma vcLoop_succ_ready (model : VEncodedInput → List ℚ) (req : ℚ)
    (id_1 id_0 topk n : Nat) (enc : VEncodedInput)
    (htk : 0 < topk ∧ topk ≤ (model enc).length)
    (hr : id_1 ∈ topkIndices (model enc) topk ∨ id_0 ∈ topkIndices (model enc) topk) :
    vcLoop model req id_1 id_0 true topk (n + 1) enc =
      scoreStep (model enc) req id_1 id_0 enc := by
  have hnr : ¬ (id_1 ∉ topkIndices (model enc) topk ∧ id_0 ∉ topkIndices (model enc) topk) := by
    intro hc
    rcases hr with h | h
    · exact hc.1 h
    · exact hc.2 h
  simp only [vcLoop]
  rw [if_pos htk, if_neg hnr]
  simp only [if_true]

lemma vcLoop_succ_notReady (model : VEncodedInput → List ℚ) (req : ℚ)
    (id_1 id_0 topk n : Nat) (enc : VEncodedInput)
    (htk : 0 < topk ∧ topk ≤ (model enc).length)
    (hnr : id_1 ∉ topkIndices (model enc) topk ∧ id_0 ∉ topkIndices (model enc) topk) :
    vcLoop model req id_1 id_0 true topk (n + 1) enc =
      match vcLoop model req id_1 id_0 true topk n (vcAdvance model topk enc) with
      | none => none
      | some t => some { t with passes := t.passes + 1 } := by
  simp only [vcLoop]
  rw [if_pos htk, if_pos hnr]
  simp only [if_true]
  rfl

lemma tcLoop_succ_unbounded (model : List Nat → List ℚ) (req : ℚ)
    (id_1 id_0 topk n : Nat) (inp : List Nat) :
    tcLoop model req id_1 id_0 false topk (n + 1) inp =
      scoreStep (model inp) req id_1 id_0 inp := rfl

lemma tcLoop_succ_ready (model : List Nat → List ℚ) (req : ℚ)
    (id_1 id_0 topk n : Nat) (inp : List Nat)
    (htk : 0 < topk ∧ topk ≤ (model inp).length)
    (hr : id_1 ∈ topkIndices (model inp) topk ∨ id_0 ∈ topkIndices (model inp) topk) :
    tcLoop model req id_1 id_0 true topk (n + 1) inp =
      scoreStep (model inp) req id_1 id_0 inp := by
  have hnr : ¬ (id_1 ∉ topkIndices (model inp) topk ∧ id_0 ∉ topkIndices (model inp) topk) := by
    intro hc
    rcases hr with h | h
    · exact hc.1 h
    · exact hc.2 h
  simp only [tcLoop]
  rw [if_pos htk, if_neg hnr]
  simp only [if_true]

lemma tcLoop_succ_notReady (model : List Nat → List ℚ) (req : ℚ)
    (id_1 id_0 topk n : Nat) (inp : List Nat)
    (htk : 0 < topk ∧ topk ≤ (model inp).length)
    (hnr : id_1 ∉ topkIndices (model inp) topk ∧ id_0 ∉ topkIndices (model inp) topk) :
    tcLoop model req id_1 id_0 true topk (n + 1) inp = none := by
  simp only [tcLoop]
  rw [if_pos htk, if_pos hnr]
  simp only [if_true]

lemma tcLoop_succ_badTopk (model : List Nat → List ℚ) (req : ℚ)
    (id_1 id_0 topk n : Nat) (inp : List Nat)
    (h : ¬ (0 < topk ∧ topk ≤ (model inp).length)) :
    tcLoop model req id_1 id_0 true topk (n + 1) inp = none := by
  simp only [tcLoop]
  rw [if_neg h]
  simp only [if_true]

lemma vAppend_len (enc : VEncodedInput) (t : Nat) :
    (vAppend enc t).input_ids.length = enc.input_ids.length + 1 := by
  simp [vAppend]

lemma vcAdvance_iterate_len (model : VEncodedInput → List ℚ) (topk : Nat) :
    ∀ (k : Nat) (enc : VEncodedInput),
      (((vcAdvance model topk)^[k]) enc).input_ids.length =
        enc.input_ids.length + k := by
  intro k
  induction k with
  | zero => intro enc; simp
  | succ m ih =>
    intro enc
    rw [Function.iterate_succ_apply, ih]
    simp [vcAdvance, vAppend]
    omega

lemma notReadyAt_spec {model : VEncodedInput → List ℚ} {id_1 id_0 topk : Nat}
    {enc : VEncodedInput} (h : notReadyAt model id_1 id_0 topk enc = true) :
    (0 < topk ∧ topk ≤ (model enc).length) ∧
    id_1 ∉ topkIndices (model enc) topk ∧ id_0 ∉ topkIndices (model enc) topk := by
  simp only [notReadyAt, Bool.and_eq_true, decide_eq_true_eq] at h
  exact ⟨⟨h.1.1.1, h.1.1.2⟩, h.1.2, h.2⟩

lemma vcLoop_exhaust (model : VEncodedInput → List ℚ) (req : ℚ)
    (id_1 id_0 topk : Nat) :
    ∀ (n : Nat) (enc : VEncodedInput),
      (∀ i, i < n → notReadyAt model id_1 id_0 topk ((vcAdvance model topk)^[i] enc) = true) →
      vcLoop model req id_1 id_0 true topk n enc =
        some ⟨true, true, (vcAdvance model topk)^[n] enc, n⟩ := by
  intro n
  induction n with
  | zero =>
    intro enc _
    simp [vcLoop]
  | succ m ih =>
    intro enc H
    have h0 := H 0 (Nat.succ_pos m)
    rw [Function.iterate_zero, id_eq] at h0
    obtain ⟨htk, hnr⟩ := notReadyAt_spec h0
    rw [vcLoop_succ_notReady model req id_1 id_0 topk m enc htk hnr]
    have Hs : ∀ i, i < m →
        notReadyAt model id_1 id_0 topk ((vcAdvance model topk)^[i] (vcAdvance model topk enc)) = true := by
      intro i hi
      have hx := H (i + 1) (Nat.succ_lt_succ hi)
      rwa [Function.iterate_succ_apply] at hx
    rw [ih (vcAdvance model topk enc) Hs]
    simp [Function.iterate_succ_apply]

/-- C1 (amended): in a run of `vision_classify` with positive `maxSteps = k`
in which neither `yesTokenId` nor `noTokenId` appears in the top-K set at any
of the `k` forward passes, the classifier returns `true`, reports that the
attempt limit was reached, and the token sequence has grown by exactly `k`
appended tokens (every not-ready pass appends, including the final one; no
scoring pass happens). -/
theorem attempt_limit_exhaustion (model : VEncodedInput → List ℚ)
    (enc : VEncodedInput) (req : ℚ) (id_1 id_0 topk k : Nat) (hk : 0 < k)
    (H : ∀ i, i < k → notReadyAt model id_1 id_0 topk ((vcAdvance model topk)^[i] enc) = true) :
    vision_classify model enc req id_1 id_0 (some k) topk =
      some ⟨true, true, (vcAdvance model topk)^[k] enc, k⟩ ∧
    (((vcAdvance model topk)^[k]) enc).input_ids.length = enc.input_ids.length + k := by
  constructor
  · show vcLoop model req id_1 id_0 (decide (k ≠ 0)) topk k enc = _
    rw [decide_eq_true hk.ne']
    exact vcLoop_exhaust model req id_1 id_0 topk k enc H
  · exact vcAdvance_iterate_len model topk k enc

/-- C1 counterexample: with `maxSteps = 2`, `topk = 1`, target ids `1` and
`2`, a model whose argmax is always token `0` is never ready; the run returns
with the attempt limit reached and the token sequence grown by `2` tokens —
not `maxSteps - 1 = 1` as claimed. -/
theorem attempt_limit_exhaustion_cex :
    (notReadyAt cexModel 1 2 1 exEnc = true) ∧
    (notReadyAt cexModel 1 2 1 (vcAdvance cexModel 1 exEnc) = true) ∧
    (vision_classify cexModel exEnc 0 1 2 (some 2) 1).map
      (fun t => t.final.input_ids.length) = some 3 ∧
    ¬ ((3 : Nat) = 1 + (2 - 1)) := ⟨by decide, by decide, by decide, by decide⟩

/-- C1 witness: the amended theorem at the counterexample's inputs. -/
theorem attempt_limit_exhaustion_witness :
    vision_classify cexModel exEnc 0 1 2 (some 2) 1 =
      some ⟨true, true, ((vcAdvance cexModel 1)^[2]) exEnc, 2⟩ ∧
    (((vcAdvance cexModel 1)^[2]) exEnc).input_ids.length = 1 + 2 :=
  attempt_limit_exhaustion cexModel exEnc 0 1 2 1 2 (by decide) (by decide)

/-- C2: for every `EncodedInput` and model whose first forward pass places
`yesTokenId` or `noTokenId` in the top-K set, the classifier (vision and
text) returns after exactly one forward pass, appending nothing, for every
spec-valid `maxSteps` (a positive integer or the `None` sentinel). -/
theorem first_pass_ready_one_pass (model : VEncodedInput → List ℚ)
    (enc : VEncodedInput) (req : ℚ) (id_1 id_0 topk : Nat)
    (max_steps : Option Nat)
    (hms : max_steps = none ∨ ∃ k, max_steps = some k ∧ 0 < k)
    (htk : 0 < topk ∧ topk ≤ (model enc).length)
    (hready : id_1 ∈ topkIndices (model enc) topk ∨ id_0 ∈ topkIndices (model enc) topk)
    (h1 : id_1 < (model enc).length) (h0 : id_0 < (model enc).length)
    (tmodel : List Nat → List ℚ) (tinp : List Nat)
    (ttk : 0 < topk ∧ topk ≤ (tmodel tinp).length)
    (tready : id_1 ∈ topkIndices (tmodel tinp) topk ∨ id_0 ∈ topkIndices (tmodel tinp) topk)
    (t1 : id_1 < (tmodel tinp).length) (t0 : id_0 < (tmodel tinp).length) :
    (∃ t, vision_classify model enc req id_1 id_0 max_steps topk = some t ∧
       t.passes = 1 ∧ t.final = enc) ∧
    (∃ u, text_classify tmodel tinp req id_1 id_0 max_steps topk = some u ∧
       u.passes = 1 ∧ u.final = tinp) := by
  rcases hms with hms | ⟨k, hms, hkpos⟩
  · subst hms
    have hv : vision_classify model enc req id_1 id_0 none topk =
        some ⟨decide ((model enc).get ⟨id_1, h1⟩ - (model enc).get ⟨id_0, h0⟩ ≥ req),
          false, enc, 1⟩ := by
      show vcLoop model req id_1 id_0 false topk 1 enc = _
      rw [vcLoop_succ_unbounded, scoreStep_pos (model enc) req id_1 id_0 enc h1 h0]
    have hw : text_classify tmodel tinp req id_1 id_0 none topk =
        some ⟨decide ((tmodel tinp).get ⟨id_1, t1⟩ - (tmodel tinp).get ⟨id_0, t0⟩ ≥ req),
          false, tinp, 1⟩ := by
      show tcLoop tmodel req id_1 id_0 false topk 1 tinp = _
      rw [tcLoop_succ_unbounded, scoreStep_pos (tmodel tinp) req id_1 id_0 tinp t1 t0]
    exact ⟨⟨_, hv, rfl, rfl⟩, ⟨_, hw, rfl, rfl⟩⟩
  · subst hms
    obtain ⟨m, rfl⟩ := Nat.exists_eq_succ_of_ne_zero hkpos.ne.symm
    have hv : vision_classify model enc req id_1 id_0 (some (m + 1)) topk =
        some ⟨decide ((model enc).get ⟨id_1, h1⟩ - (model enc).get ⟨id_0, h0⟩ ≥ req),
          false, enc, 1⟩ := by
      show vcLoop model req id_1 id_0 (decide (m + 1 ≠ 0)) topk (m + 1) enc = _
      rw [decide_eq_true (Nat.succ_ne_zero m)]
      rw [vcLoop_succ_ready model req id_1 id_0 topk m enc htk hready]
      rw [scoreStep_pos (model enc) req id_1 id_0 enc h1 h0]
    have hw : text_classify tmodel tinp req id_1 id_0 (some (m + 1)) topk =
        some ⟨decide ((tmodel tinp).get ⟨id_1, t1⟩ - (tmodel tinp).get ⟨id_0, t0⟩ ≥ req),
          false, tinp, 1⟩ := by
      show tcLoop tmodel req id_1 id_0 (decide (m + 1 ≠ 0)) topk (m + 1) tinp = _
      rw [decide_eq_true (Nat.succ_ne_zero m)]
      rw [tcLoop_succ_ready tmodel req id_1 id_0 topk m tinp ttk tready]
      rw [scoreStep_pos (tmodel tinp) req id_1 id_0 tinp t1 t0]
    exact ⟨⟨_, hv, rfl, rfl⟩, ⟨_, hw, rfl, rfl⟩⟩

/-- C2 witness. -/
theorem first_pass_ready_one_pass_witness :
    (∃ t, vision_classify exModel exEnc 0 0 1 (some 3) 1 = some t ∧
       t.passes = 1 ∧ t.final = exEnc) ∧
    (∃ u, text_classify exTModel [3] 0 0 1 (some 3) 1 = some u ∧
       u.passes = 1 ∧ u.final = [3]) :=
  first_pass_ready_one_pass exModel exEnc 0 0 1 1 (some 3)
    (Or.inr ⟨3, rfl, by decide⟩) (by decide) (by decide) (by decide) (by decide)
    exTModel [3] (by decide) (by decide) (by decide) (by decide)

/-- C3: at the scoring step the decision is exactly
`keep = (logit(yes) - logit(no) >= requiredLogitDiff)`: the comparison is
`>=`, a difference equal to the boundary yields `true` (ties favor keep), and
the decision is a pure function of the logits (deterministic). -/
theorem score_decision_boundary (logits : List ℚ) (req : ℚ) (id_1 id_0 : Nat)
    (enc : VEncodedInput) (h1 : id_1 < logits.length) (h0 : id_0 < logits.length) :
    scoreStep logits req id_1 id_0 enc =
      some ⟨decide (logits.get ⟨id_1, h1⟩ - logits.get ⟨id_0, h0⟩ ≥ req),
        false, enc, 1⟩ ∧
    (logits.get ⟨id_1, h1⟩ - logits.get ⟨id_0, h0⟩ = req →
      scoreStep logits req id_1 id_0 enc = some ⟨true, false, enc, 1⟩) := by
  constructor
  · exact scoreStep_pos logits req id_1 id_0 enc h1 h0
  · intro he
    rw [scoreStep_pos logits req id_1 id_0 enc h1 h0, he]
    simp

/-- C3 witness: equal logits and a zero boundary keep (the spec example:
threshold 0.5, logits 2.0 and 2.0). -/
theorem score_decision_boundary_witness :
    scoreStep [(2 : ℚ), 2] 0 0 1 exEnc = some ⟨true, false, exEnc, 1⟩ :=
  (score_decision_boundary [(2 : ℚ), 2] 0 0 1 exEnc (of_decide_eq_true rfl)
    (of_decide_eq_true rfl)).2 (by with_unfolding_all decide)

/-- C7: with the step bound disabled (`maxSteps = None`), both classifiers
perform exactly one forward pass, skip the readiness check and any append,
and return the `>=` decision of that single pass. -/
theorem sentinel_single_attempt (model : VEncodedInput → List ℚ)
    (enc : VEncodedInput) (req : ℚ) (id_1 id_0 topk : Nat)
    (h1 : id_1 < (model enc).length) (h0 : id_0 < (model enc).length)
    (tmodel : List Nat → List ℚ) (tinp : List Nat)
    (t1 : id_1 < (tmodel tinp).length) (t0 : id_0 < (tmodel tinp).length) :
    vision_classify model enc req id_1 id_0 none topk =
      some ⟨decide ((model enc).get ⟨id_1, h1⟩ - (model enc).get ⟨id_0, h0⟩ ≥ req),
        false, enc, 1⟩ ∧
    text_classify tmodel tinp req id_1 id_0 none topk =
      some ⟨decide ((tmodel tinp).get ⟨id_1, t1⟩ - (tmodel tinp).get ⟨id_0, t0⟩ ≥ req),
        false, tinp, 1⟩ := by
  constructor
  · show vcLoop model req id_1 id_0 false topk 1 enc = _
    rw [vcLoop_succ_unbounded, scoreStep_pos (model enc) req id_1 id_0 enc h1 h0]
  · show tcLoop tmodel req id_1 id_0 false topk 1 tinp = _
    rw [tcLoop_succ_unbounded, scoreStep_pos (tmodel tinp) req id_1 id_0 tinp t1 t0]

/-- C7 witness. -/
theorem sentinel_single_attempt_witness :
    vision_classify exModel exEnc 0 0 1 none 7 = some ⟨true, false, exEnc, 1⟩ ∧
    text_classify exTModel [3] 0 0 1 none 7 = some ⟨true, false, [3], 1⟩ := by
  have h := sentinel_single_attempt exModel exEnc 0 0 1 7 (of_decide_eq_true rfl)
    (of_decide_eq_true rfl) exTModel [3] (of_decide_eq_true rfl) (of_decide_eq_true rfl)
  exact ⟨h.1.trans (by with_unfolding_all decide), h.2.trans (by with_unfolding_all decide)⟩

/-- C10: in text mode the encoded input is a bare token tensor, so the
"not ready" branch of `text_classify` (which assigns string keys into the
input) raises instead of extending the sequence; `text_classify` returns
normally only when the first forward pass surfaces a target id in the
top-K, before any append is attempted. -/
theorem text_append_raises (model : List Nat → List ℚ) (inp : List Nat)
    (req : ℚ) (id_1 id_0 k topk : Nat) (hk : 0 < k) :
    ((0 < topk ∧ topk ≤ (model inp).length) →
      (id_1 ∉ topkIndices (model inp) topk ∧ id_0 ∉ topkIndices (model inp) topk) →
      text_classify model inp req id_1 id_0 (some k) topk = none) ∧
    (∀ t, text_classify model inp req id_1 id_0 (some k) topk = some t →
      (id_1 ∈ topkIndices (model inp) topk ∨ id_0 ∈ topkIndices (model inp) topk) ∧
      t.final = inp ∧ t.passes = 1) := by
  obtain ⟨m, rfl⟩ := Nat.exists_eq_succ_of_ne_zero hk.ne.symm
  have hshow : text_classify model inp req id_1 id_0 (some (m + 1)) topk =
      tcLoop model req id_1 id_0 (decide (m + 1 ≠ 0)) topk (m + 1) inp := rfl
  rw [hshow, decide_eq_true (Nat.succ_ne_zero m)]
  constructor
  · intro htk hnr
    exact tcLoop_succ_notReady model req id_1 id_0 topk m inp htk hnr
  · intro t ht
    by_cases htk : 0 < topk ∧ topk ≤ (model inp).length
    · by_cases hm1 : id_1 ∈ topkIndices (model inp) topk
      · rw [tcLoop_succ_ready model req id_1 id_0 topk m inp htk (Or.inl hm1)] at ht
        obtain ⟨hf, hp, _⟩ := scoreStep_some ht
        exact ⟨Or.inl hm1, hf, hp⟩
      · by_cases hm0 : id_0 ∈ topkIndices (model inp) topk
        · rw [tcLoop_succ_ready model req id_1 id_0 topk m inp htk (Or.inr hm0)] at ht
          obtain ⟨hf, hp, _⟩ := scoreStep_some ht
          exact ⟨Or.inr hm0, hf, hp⟩
        · rw [tcLoop_succ_notReady model req id_1 id_0 topk m inp htk ⟨hm1, hm0⟩] at ht
          exact Option.noConfusion ht
    · rw [tcLoop_succ_badTopk model req id_1 id_0 topk m inp htk] at ht
      exact Option.noConfusion ht

/-- C10 witness: a not-ready first pass raises (`none`). -/
theorem text_append_raises_witness :
    text_classify cexTModel [3] 0 1 2 (some 5) 1 = none :=
  (text_append_raises cexTModel [3] 0 1 2 5 1 (by decide)).1 (by decide) (by decide)

/-- C8: the required logit difference `ln(t / (1 - t))` (computed once per
run in the driver prelude) is strictly increasing in the threshold `t` on
`(0, 1)`, and vanishes at `t = 1/2`. -/
theorem req_logit_diff_strictMono :
    StrictMonoOn req_logit_diff (Set.Ioo (0 : ℝ) 1) ∧
    req_logit_diff (1 / 2) = 0 := by
  constructor
  · intro a ha b hb hab
    have ha2 : a < 1 := ha.2
    have hb2 : b < 1 := hb.2
    have ha1 : (0 : ℝ) < 1 - a := by linarith
    have hb1 : (0 : ℝ) < 1 - b := by linarith
    unfold req_logit_diff
    apply Real.log_lt_log (div_pos ha.1 ha1)
    rw [div_lt_div_iff₀ ha1 hb1]
    nlinarith [ha.1, hb.1]
  · unfold req_logit_diff
    rw [show ((1 : ℝ) / 2) / (1 - 1 / 2) = 1 by norm_num, Real.log_one]

lemma vfPre_results (cfg : VFCfg) (metadata : List VRow) (st : VFState) :
    (vfPre cfg metadata st).results = st.results := by
  unfold vfPre vfCheckpoint
  split <;> rfl

lemma vfPre_missing (cfg : VFCfg) (metadata : List VRow) (st : VFState) :
    (vfPre cfg metadata st).missing_or_corrupted = st.missing_or_corrupted := by
  unfold vfPre vfCheckpoint
  split <;> rfl

lemma vfPre_calls (cfg : VFCfg) (metadata : List VRow) (st : VFState) :
    (vfPre cfg metadata st).classifier_calls = st.classifier_calls := by
  unfold vfPre vfCheckpoint
  split <;> rfl

lemma expectedResults_cons_some {cfg : VFCfg} {row : VRow} {rest : List VRow}
    {d : Bool} {ds : List Bool}
    (hd : rowDecision cfg row = some d) (hds : expectedResults cfg rest = some ds) :
    expectedResults cfg (row :: rest) = some (d :: ds) := by
  unfold expectedResults
  rw [hd, hds]

lemma expectedResults_cons_elim {cfg : VFCfg} {row : VRow} {rest : List VRow}
    {l : List Bool} (h : expectedResults cfg (row :: rest) = some l) :
    ∃ d ds, rowDecision cfg row = some d ∧ expectedResults cfg rest = some ds ∧
      l = d :: ds := by
  unfold expectedResults at h
  cases hd : rowDecision cfg row with
  | none => rw [hd] at h; exact Option.noConfusion h
  | some d =>
    cases hds : expectedResults cfg rest with
    | none => rw [hd, hds] at h; exact Option.noConfusion h
    | some ds =>
      rw [hd, hds] at h
      cases h
      exact ⟨d, ds, rfl, rfl, rfl⟩

lemma expectedResults_length (cfg : VFCfg) :
    ∀ (rows : List VRow) (ds : List Bool), expectedResults cfg rows = some ds →
      ds.length = rows.length := by
  intro rows
  induction rows with
  | nil => intro ds h; cases h; rfl
  | cons row rest ih =>
    intro ds h
    obtain ⟨d, ds2, _, hds, rfl⟩ := expectedResults_cons_elim h
    simp [ih ds2 hds]

lemma expectedResults_get (cfg : VFCfg) :
    ∀ (rows : List VRow) (ds : List Bool), expectedResults cfg rows = some ds →
      ∀ (i : Nat) (h : i < rows.length),
        rowDecision cfg (rows.get ⟨i, h⟩) = some (ds.getD i false) := by
  intro rows
  induction rows with
  | nil => intro ds _ i h; exact absurd h (Nat.not_lt_zero i)
  | cons row rest ih =>
    intro ds hds i hi
    obtain ⟨d, ds2, hd, hds2, rfl⟩ := expectedResults_cons_elim hds
    cases i with
    | zero => simpa using hd
    | succ j =>
      have hj : j < rest.length := Nat.lt_of_succ_lt_succ hi
      simpa using ih ds2 hds2 j hj

lemma rowDecision_bad {cfg : VFCfg} {row : VRow} (h : VLoad.isBad row.load = true) :
    rowDecision cfg row = some cfg.keep_corrupted := by
  unfold rowDecision
  cases hl : row.load with
  | ok enc => rw [hl] at h; exact Bool.noConfusion h
  | missing => rfl
  | corrupted => rfl

lemma rowDecision_ok (cfg : VFCfg) {row : VRow} {enc : VEncodedInput}
    (h : row.load = VLoad.ok enc) :
    rowDecision cfg row = (vision_classify cfg.model enc cfg.req_logit_diff
      cfg.true_token_id cfg.false_token_id cfg.max_steps cfg.topk).map
        ClassifyTrace.prediction := by
  unfold rowDecision
  rw [h]

lemma vfLoop_run (cfg : VFCfg) (metadata : List VRow) :
    ∀ (rows : List VRow) (st : VFState) (ds : List Bool),
      expectedResults cfg rows = some ds →
      ∃ st2, vfLoop cfg metadata rows st = some st2 ∧
        st2.results = st.results ++ ds ∧
        st2.missing_or_corrupted =
          st.missing_or_corrupted + rows.countP (fun r => VLoad.isBad r.load) ∧
        st2.classifier_calls =
          st.classifier_calls + rows.countP (fun r => !VLoad.isBad r.load) := by
  intro rows
  induction rows with
  | nil =>
    intro st ds h
    cases h
    exact ⟨st, rfl, by simp, by simp, by simp⟩
  | cons row rest ih =>
    intro st ds h
    obtain ⟨d, ds2, hd, hds, rfl⟩ := expectedResults_cons_elim h
    cases hload : row.load with
    | ok enc =>
      rw [rowDecision_ok cfg hload] at hd
      cases hv : vision_classify cfg.model enc cfg.req_logit_diff cfg.true_token_id
          cfg.false_token_id cfg.max_steps cfg.topk with
      | none => rw [hv] at hd; exact Option.noConfusion hd
      | some t =>
        rw [hv] at hd
        have hpred : t.prediction = d := by simpa using hd
        obtain ⟨st2, hrun, hres, hmiss, hcalls⟩ :=
          ih { vfPre cfg metadata st with
                results := (vfPre cfg metadata st).results ++ [t.prediction]
                classifier_calls := (vfPre cfg metadata st).classifier_calls + 1 }
            ds2 hds
        refine ⟨st2, ?_, ?_, ?_, ?_⟩
        · simp only [vfLoop, hload, hv]
          exact hrun
        · rw [hres]
          simp [vfPre_results, hpred]
        · rw [hmiss]
          simp [vfPre_missing, List.countP_cons, hload, VLoad.isBad]
        · rw [hcalls]
          simp [vfPre_calls, List.countP_cons, hload, VLoad.isBad]
          omega
    | missing =>
      have hbad : VLoad.isBad row.load = true := by rw [hload]; rfl
      rw [rowDecision_bad hbad] at hd
      have hdk : cfg.keep_corrupted = d := by simpa using hd
      obtain ⟨st2, hrun, hres, hmiss, hcalls⟩ :=
        ih { vfPre cfg metadata st with
              missing_or_corrupted := (vfPre cfg metadata st).missing_or_corrupted + 1
              results := (vfPre cfg metadata st).results ++ [cfg.keep_corrupted] }
          ds2 hds
      refine ⟨st2, ?_, ?_, ?_, ?_⟩
      · simp only [vfLoop, hload]
        exact hrun
      · rw [hres]
        simp [vfPre_results, hdk]
      · rw [hmiss]
        simp [vfPre_missing, List.countP_cons, hload, VLoad.isBad]
        omega
      · rw [hcalls]
        simp [vfPre_calls, List.countP_cons, hload, VLoad.isBad]
    | corrupted =>
      have hbad : VLoad.isBad row.load = true := by rw [hload]; rfl
      rw [rowDecision_bad hbad] at hd
      have hdk : cfg.keep_corrupted = d := by simpa using hd
      obtain ⟨st2, hrun, hres, hmiss, hcalls⟩ :=
        ih { vfPre cfg metadata st with
              missing_or_corrupted := (vfPre cfg metadata st).missing_or_corrupted + 1
              results := (vfPre cfg metadata st).results ++ [cfg.keep_corrupted] }
          ds2 hds
      refine ⟨st2, ?_, ?_, ?_, ?_⟩
      · simp only [vfLoop, hload]
        exact hrun
      · rw [hres]
        simp [vfPre_results, hdk]
      · rw [hmiss]
        simp [vfPre_missing, List.countP_cons, hload, VLoad.isBad]
        omega
      · rw [hcalls]
        simp [vfPre_calls, List.countP_cons, hload, VLoad.isBad]

lemma vfLoop_complete (cfg : VFCfg) (metadata : List VRow) :
    ∀ (rows : List VRow) (st st2 : VFState),
      vfLoop cfg metadata rows st = some st2 →
      ∃ ds, expectedResults cfg rows = some ds := by
  intro rows
  induction rows with
  | nil => intro st st2 _; exact ⟨[], rfl⟩
  | cons row rest ih =>
    intro st st2 h
    cases hload : row.load with
    | ok enc =>
      simp only [vfLoop, hload] at h
      cases hv : vision_classify cfg.model enc cfg.req_logit_diff cfg.true_token_id
          cfg.false_token_id cfg.max_steps cfg.topk with
      | none =>
        simp only [hv] at h
        exact Option.noConfusion h
      | some t =>
        simp only [hv] at h
        obtain ⟨ds, hds⟩ := ih _ _ h
        refine ⟨t.prediction :: ds, expectedResults_cons_some ?_ hds⟩
        rw [rowDecision_ok cfg hload, hv]
        rfl
    | missing =>
      simp only [vfLoop, hload] at h
      obtain ⟨ds, hds⟩ := ih _ _ h
      have hbad : VLoad.isBad row.load = true := by rw [hload]; rfl
      exact ⟨cfg.keep_corrupted :: ds, expectedResults_cons_some (rowDecision_bad hbad) hds⟩
    | corrupted =>
      simp only [vfLoop, hload] at h
      obtain ⟨ds, hds⟩ := ih _ _ h
      have hbad : VLoad.isBad row.load = true := by rw [hload]; rfl
      exact ⟨cfg.keep_corrupted :: ds, expectedResults_cons_some (rowDecision_bad hbad) hds⟩

lemma succ_mod_eq (n k : Nat) : (n + 1) % k = (n % k + 1) % k := by
  conv_lhs => rw [← Nat.mod_add_div n k, Nat.add_right_comm]
  exact Nat.add_mul_mod_self_left _ _ _

lemma sinceVal_le {k m : Nat} (hk : 0 < k) : sinceVal k m ≤ k := by
  unfold sinceVal
  split
  · omega
  · have := Nat.mod_lt (m - 1) hk
    omega

lemma sinceVal_succ {k m : Nat} (h : sinceVal k m < k) :
    sinceVal k (m + 1) = sinceVal k m + 1 := by
  unfold sinceVal at h ⊢
  cases m with
  | zero => simp
  | succ n =>
    rw [if_neg (Nat.succ_ne_zero n)] at h
    rw [if_neg (Nat.succ_ne_zero (n + 1)), if_neg (Nat.succ_ne_zero n)]
    simp only [Nat.succ_sub_one] at h ⊢
    rw [succ_mod_eq, Nat.mod_eq_of_lt (by omega)]

lemma sinceVal_due_elim {k m : Nat} (hk : 0 < k) (h : k ≤ sinceVal k m) :
    m ≠ 0 ∧ m % k = 0 ∧ sinceVal k (m + 1) = 1 := by
  unfold sinceVal at h
  cases m with
  | zero =>
    rw [if_pos rfl] at h
    omega
  | succ n =>
    rw [if_neg (Nat.succ_ne_zero n)] at h
    simp only [Nat.succ_sub_one] at h
    have hmod : n % k < k := Nat.mod_lt n hk
    have hn : n % k = k - 1 := by omega
    have hmul : (n + 1) % k = 0 := by
      rw [succ_mod_eq, hn]
      have h2 : k - 1 + 1 = k := by omega
      rw [h2, Nat.mod_self]
    refine ⟨Nat.succ_ne_zero n, hmul, ?_⟩
    unfold sinceVal
    rw [if_neg (Nat.succ_ne_zero (n + 1))]
    simp only [Nat.succ_sub_one]
    rw [hmul]

lemma checkpointDue_iff {k since : Nat} (hk : 0 < k) :
    checkpointDue (some k) since = true ↔ k ≤ since := by
  unfold checkpointDue
  simp [hk.ne']

lemma cpContentAt_take (cfg : VFCfg) (metadata : List VRow)
    {results : List Bool} {n : Nat} (h : n ≤ results.length) :
    cpContentAt cfg metadata (results.take n) =
      toCsv cfg.delim cfg.has_header cfg.colNames
        ((maskSelect (metadata.take n) (results.take n)).map VRow.cells) := by
  unfold cpContentAt
  rw [List.length_take, Nat.min_eq_left h]

lemma vfPre_due_since (cfg : VFCfg) (metadata : List VRow) (st : VFState)
    (h : checkpointDue cfg.save_every st.since_last_save = true) :
    (vfPre cfg metadata st).since_last_save = 1 := by
  unfold vfPre vfCheckpoint
  rw [h]
  rfl

lemma vfPre_due_writes (cfg : VFCfg) (metadata : List VRow) (st : VFState)
    (h : checkpointDue cfg.save_every st.since_last_save = true) :
    (vfPre cfg metadata st).writes =
      st.writes ++ [(st.results.length, cpContentAt cfg metadata st.results)] := by
  unfold vfPre vfCheckpoint
  rw [h]
  rfl

lemma vfPre_due_file (cfg : VFCfg) (metadata : List VRow) (st : VFState)
    (h : checkpointDue cfg.save_every st.since_last_save = true) :
    (vfPre cfg metadata st).file = some (cpContentAt cfg metadata st.results) := by
  unfold vfPre vfCheckpoint
  rw [h]
  rfl

lemma vfPre_not_due_since (cfg : VFCfg) (metadata : List VRow) (st : VFState)
    (h : checkpointDue cfg.save_every st.since_last_save = false) :
    (vfPre cfg metadata st).since_last_save = st.since_last_save + 1 := by
  unfold vfPre
  rw [h]
  rfl

lemma vfPre_not_due_writes (cfg : VFCfg) (metadata : List VRow) (st : VFState)
    (h : checkpointDue cfg.save_every st.since_last_save = false) :
    (vfPre cfg metadata st).writes = st.writes := by
  unfold vfPre
  rw [h]
  rfl

lemma vfPre_not_due_file (cfg : VFCfg) (metadata : List VRow) (st : VFState)
    (h : checkpointDue cfg.save_every st.since_last_save = false) :
    (vfPre cfg metadata st).file = st.file := by
  unfold vfPre
  rw [h]
  rfl

lemma cpInv_step (cfg : VFCfg) (metadata : List VRow) (k : Nat)
    (hk : cfg.save_every = some k) (hk0 : 0 < k) (st st2 : VFState) (b : Bool)
    (hres : st2.results = (vfPre cfg metadata st).results ++ [b])
    (hsin : st2.since_last_save = (vfPre cfg metadata st).since_last_save)
    (hwr : st2.writes = (vfPre cfg metadata st).writes)
    (hfi : st2.file = (vfPre cfg metadata st).file)
    (hinv : cpInv cfg metadata k st) : cpInv cfg metadata k st2 := by
  obtain ⟨hsince, hwok, hfile⟩ := hinv
  rw [vfPre_results] at hres
  have hlen : st2.results.length = st.results.length + 1 := by
    rw [hres]
    simp
  cases hdue : checkpointDue cfg.save_every st.since_last_save with
  | true =>
    rw [vfPre_due_since cfg metadata st hdue] at hsin
    rw [vfPre_due_writes cfg metadata st hdue] at hwr
    rw [vfPre_due_file cfg metadata st hdue] at hfi
    have hge : k ≤ sinceVal k st.results.length := by
      rw [← hsince, ← checkpointDue_iff hk0, ← hk]
      exact hdue
    obtain ⟨hm0, hmul, hnext⟩ := sinceVal_due_elim hk0 hge
    refine ⟨?_, ?_, ?_⟩
    · rw [hsin, hlen, hnext]
    · intro w hw
      rw [hwr] at hw
      rcases List.mem_append.mp hw with hw | hw
      · obtain ⟨h1, h2, h3, h4⟩ := hwok w hw
        refine ⟨h1, h2, by omega, ?_⟩
        rw [hres, List.take_append_of_le_length h3]
        exact h4
      · have hwv : w = (st.results.length, cpContentAt cfg metadata st.results) := by
          simpa using hw
        subst hwv
        refine ⟨by omega, hmul, by omega, ?_⟩
        dsimp only
        rw [hres, List.take_left]
        rfl
    · rw [hfi, hwr, List.getLast?_concat]
      rfl
  | false =>
    rw [vfPre_not_due_since cfg metadata st hdue] at hsin
    rw [vfPre_not_due_writes cfg metadata st hdue] at hwr
    rw [vfPre_not_due_file cfg metadata st hdue] at hfi
    have hlt : sinceVal k st.results.length < k := by
      rw [← hsince]
      by_contra hge
      have hd : checkpointDue cfg.save_every st.since_last_save = true := by
        rw [hk]
        exact (checkpointDue_iff hk0).mpr (by omega)
      rw [hd] at hdue
      exact Bool.noConfusion hdue
    refine ⟨?_, ?_, ?_⟩
    · rw [hsin, hsince, hlen, sinceVal_succ hlt]
    · intro w hw
      rw [hwr] at hw
      obtain ⟨h1, h2, h3, h4⟩ := hwok w hw
      refine ⟨h1, h2, by omega, ?_⟩
      rw [hres, List.take_append_of_le_length h3]
      exact h4
    · rw [hfi, hwr]
      exact hfile

lemma vfLoop_cpInv (cfg : VFCfg) (metadata : List VRow) (k : Nat)
    (hk : cfg.save_every = some k) (hk0 : 0 < k) :
    ∀ (rows : List VRow) (st st2 : VFState),
      vfLoop cfg metadata rows st = some st2 →
      cpInv cfg metadata k st → cpInv cfg metadata k st2 := by
  intro rows
  induction rows with
  | nil =>
    intro st st2 h hinv
    cases h
    exact hinv
  | cons row rest ih =>
    intro st st2 h hinv
    cases hload : row.load with
    | ok enc =>
      simp only [vfLoop, hload] at h
      cases hv : vision_classify cfg.model enc cfg.req_logit_diff cfg.true_token_id
          cfg.false_token_id cfg.max_steps cfg.topk with
      | none =>
        simp only [hv] at h
        exact Option.noConfusion h
      | some t =>
        simp only [hv] at h
        exact ih _ _ h
          (cpInv_step cfg metadata k hk hk0 st _ t.prediction rfl rfl rfl rfl hinv)
    | missing =>
      simp only [vfLoop, hload] at h
      exact ih _ _ h
        (cpInv_step cfg metadata k hk hk0 st _ cfg.keep_corrupted rfl rfl rfl rfl hinv)
    | corrupted =>
      simp only [vfLoop, hload] at h
      exact ih _ _ h
        (cpInv_step cfg metadata k hk hk0 st _ cfg.keep_corrupted rfl rfl rfl rfl hinv)

/-- C6: with a configured checkpoint interval `k`, every checkpoint write of
a completed vision run happened after a positive multiple of `k` processed
rows `n` and wrote exactly the rows among the first `n` whose accumulated
result was `true`, in original order, serialized with the configured
delimiter and header; the file always holds the last write (overwrite, not
append), and the since-last-checkpoint counter is reset on each write (it
never exceeds `k`). -/
theorem checkpoint_write_contents (cfg : VFCfg) (metadata : List VRow)
    (st : VFState) (k : Nat) (hk : cfg.save_every = some k) (hk0 : 0 < k)
    (hrun : vfLoop cfg metadata metadata vfInit = some st) :
    (∀ w ∈ st.writes, 0 < w.1 ∧ w.1 % k = 0 ∧ w.1 ≤ st.results.length ∧
      w.2 = toCsv cfg.delim cfg.has_header cfg.colNames
        ((maskSelect (metadata.take w.1) (st.results.take w.1)).map VRow.cells)) ∧
    st.file = st.writes.getLast?.map Prod.snd ∧
    st.since_last_save ≤ k := by
  have hinv0 : cpInv cfg metadata k vfInit := by
    refine ⟨rfl, ?_, rfl⟩
    intro w hw
    exact absurd hw (List.not_mem_nil w)
  obtain ⟨hsince, hwok, hfile⟩ :=
    vfLoop_cpInv cfg metadata k hk hk0 metadata vfInit st hrun hinv0
  refine ⟨hwok, hfile, ?_⟩
  rw [hsince]
  exact sinceVal_le hk0

/-- C6 witness. -/
theorem checkpoint_write_contents_witness :
    stW.file = stW.writes.getLast?.map Prod.snd ∧ stW.since_last_save ≤ 2 :=
  (checkpoint_write_contents cfgW exRows stW 2 rfl (by decide)
    (by with_unfolding_all decide)).2

/-- C4: in vision mode, every row whose image is missing or corrupted is
recovered locally: provided the classifier calls of the readable rows return
(the per-row decisions are all defined), the run completes without raising,
the corrupted counter equals the number of bad rows (each bad row increments
it by exactly one), the Confidence Classifier is invoked exactly once per
readable row and never for a bad row, and each bad row's recorded result is
exactly `keep_corrupted`. -/
theorem corrupted_row_recovery (cfg : VFCfg) (metadata : List VRow)
    (ds : List Bool) (hds : expectedResults cfg metadata = some ds) :
    ∃ st, vfLoop cfg metadata metadata vfInit = some st ∧
      st.missing_or_corrupted = metadata.countP (fun r => VLoad.isBad r.load) ∧
      st.classifier_calls = metadata.countP (fun r => !VLoad.isBad r.load) ∧
      ∀ (i : Nat) (h : i < metadata.length),
        VLoad.isBad ((metadata.get ⟨i, h⟩).load) = true →
        st.results.getD i false = cfg.keep_corrupted := by
  obtain ⟨st, hrun, hres, hmiss, hcalls⟩ :=
    vfLoop_run cfg metadata metadata vfInit ds hds
  refine ⟨st, hrun, ?_, ?_, ?_⟩
  · simpa [vfInit] using hmiss
  · simpa [vfInit] using hcalls
  · intro i h hbad
    have hget := expectedResults_get cfg metadata ds hds i h
    rw [rowDecision_bad hbad] at hget
    have hkd : cfg.keep_corrupted = ds.getD i false := by simpa using hget
    rw [hres]
    simpa [vfInit] using hkd.symm

/-- C4 witness: on the four-row fixture (two bad rows) the run returns, the
corrupted counter is 2, and the classifier ran twice. -/
theorem corrupted_row_recovery_witness :
    (vfLoop cfgW exRows exRows vfInit).map VFState.missing_or_corrupted = some 2 ∧
    (vfLoop cfgW exRows exRows vfInit).map VFState.classifier_calls = some 2 := by
  obtain ⟨st, hrun, hmiss, hcalls, _⟩ := corrupted_row_recovery cfgW exRows
    [true, false, true, false] (by with_unfolding_all decide)
  rw [hrun]
  simp only [Option.map_some']
  rw [hmiss, hcalls]
  constructor <;> rfl

lemma tfPre_results (cfg : TFCfg) (metadata : List TRow) (st : TFState) :
    (tfPre cfg metadata st).results = st.results := by
  unfold tfPre tfCheckpoint
  split <;> rfl

lemma expectedResultsT_cons_some {cfg : TFCfg} {row : TRow} {rest : List TRow}
    {d : Bool} {ds : List Bool}
    (hd : rowDecisionT cfg row = some d) (hds : expectedResultsT cfg rest = some ds) :
    expectedResultsT cfg (row :: rest) = some (d :: ds) := by
  unfold expectedResultsT
  rw [hd, hds]

lemma expectedResultsT_cons_elim {cfg : TFCfg} {row : TRow} {rest : List TRow}
    {l : List Bool} (h : expectedResultsT cfg (row :: rest) = some l) :
    ∃ d ds, rowDecisionT cfg row = some d ∧ expectedResultsT cfg rest = some ds ∧
      l = d :: ds := by
  unfold expectedResultsT at h
  cases hd : rowDecisionT cfg row with
  | none => rw [hd] at h; exact Option.noConfusion h
  | some d =>
    cases hds : expectedResultsT cfg rest with
    | none => rw [hd, hds] at h; exact Option.noConfusion h
    | some ds =>
      rw [hd, hds] at h
      cases h
      exact ⟨d, ds, rfl, rfl, rfl⟩

lemma expectedResultsT_length (cfg : TFCfg) :
    ∀ (rows : List TRow) (ds : List Bool), expectedResultsT cfg rows = some ds →
      ds.length = rows.length := by
  intro rows
  induction rows with
  | nil => intro ds h; cases h; rfl
  | cons row rest ih =>
    intro ds h
    obtain ⟨d, ds2, _, hds, rfl⟩ := expectedResultsT_cons_elim h
    simp [ih ds2 hds]

lemma expectedResultsT_get (cfg : TFCfg) :
    ∀ (rows : List TRow) (ds : List Bool), expectedResultsT cfg rows = some ds →
      ∀ (i : Nat) (h : i < rows.length),
        rowDecisionT cfg (rows.get ⟨i, h⟩) = some (ds.getD i false) := by
  intro rows
  induction rows with
  | nil => intro ds _ i h; exact absurd h (Nat.not_lt_zero i)
  | cons row rest ih =>
    intro ds hds i hi
    obtain ⟨d, ds2, hd, hds2, rfl⟩ := expectedResultsT_cons_elim hds
    cases i with
    | zero => simpa using hd
    | succ j =>
      have hj : j < rest.length := Nat.lt_of_succ_lt_succ hi
      simpa using ih ds2 hds2 j hj

lemma tfLoop_results (cfg : TFCfg) (metadata : List TRow) :
    ∀ (rows : List TRow) (st st2 : TFState),
      tfLoop cfg metadata rows st = some st2 →
      ∃ ds, expectedResultsT cfg rows = some ds ∧
        st2.results = st.results ++ ds := by
  intro rows
  induction rows with
  | nil =>
    intro st st2 h
    cases h
    exact ⟨[], rfl, by simp⟩
  | cons row rest ih =>
    intro st st2 h
    simp only [tfLoop] at h
    cases hv : text_classify cfg.model row.enc cfg.req_logit_diff cfg.true_token_id
        cfg.false_token_id cfg.max_steps cfg.topk with
    | none =>
      simp only [hv] at h
      exact Option.noConfusion h
    | some t =>
      simp only [hv] at h
      obtain ⟨ds, hds, hres⟩ := ih _ _ h
      refine ⟨t.prediction :: ds, expectedResultsT_cons_some ?_ hds, ?_⟩
      · unfold rowDecisionT
        rw [hv]
        rfl
      · rw [hres]
        simp [tfPre_results]

/-- C5: a completed driver run returns one boolean per dataset row, in row
order: element `i` is the decision for row `i` (in vision mode
`keep_corrupted` for a bad row, the classifier's output otherwise; in text
mode the classifier's output); vision mode additionally returns the
missing/corrupted count. -/
theorem results_align_rows (cfg : VFCfg) (metadata : List VRow) (st : VFState)
    (hrun : vfLoop cfg metadata metadata vfInit = some st)
    (tcfg : TFCfg) (tmeta : List TRow) (tst : TFState)
    (htrun : tfLoop tcfg tmeta tmeta tfInit = some tst) :
    (st.results.length = metadata.length ∧
     (∀ (i : Nat) (h : i < metadata.length),
        rowDecision cfg (metadata.get ⟨i, h⟩) = some (st.results.getD i false)) ∧
     st.missing_or_corrupted = metadata.countP (fun r => VLoad.isBad r.load)) ∧
    (tst.results.length = tmeta.length ∧
     ∀ (i : Nat) (h : i < tmeta.length),
        rowDecisionT tcfg (tmeta.get ⟨i, h⟩) = some (tst.results.getD i false)) := by
  obtain ⟨ds, hds⟩ := vfLoop_complete cfg metadata metadata vfInit st hrun
  obtain ⟨st2, hrun2, hres, hmiss, _⟩ := vfLoop_run cfg metadata metadata vfInit ds hds
  rw [hrun] at hrun2
  cases hrun2
  have hres2 : st.results = ds := by simpa [vfInit] using hres
  obtain ⟨tds, htds, htres⟩ := tfLoop_results tcfg tmeta tmeta tfInit tst htrun
  have htres2 : tst.results = tds := by simpa [tfInit] using htres
  refine ⟨⟨?_, ?_, ?_⟩, ?_, ?_⟩
  · rw [hres2]
    exact expectedResults_length cfg metadata ds hds
  · intro i h
    rw [hres2]
    exact expectedResults_get cfg metadata ds hds i h
  · simpa [vfInit] using hmiss
  · rw [htres2]
    exact expectedResultsT_length tcfg tmeta tds htds
  · intro i h
    rw [htres2]
    exact expectedResultsT_get tcfg tmeta tds htds i h

/-- C5 witness. -/
theorem results_align_rows_witness :
    stW.results.length = exRows.length ∧ tstW.results.length = exTRows.length := by
  have h := results_align_rows cfgW exRows stW (by with_unfolding_all decide)
    tcfgW exTRows tstW (by with_unfolding_all decide)
  exact ⟨h.1.1, h.2.1⟩

/-- C9 (amended): the run aborts before any classification exactly for
`threshold = 1` (the division in the inverse-sigmoid transform raises); any
other threshold — including invalid ones outside `(0, 1)` — proceeds into the
per-row loop with the transformed boundary (`torch.log` yields a non-finite
value rather than raising for the remaining invalid thresholds). -/
theorem threshold_abort_amended (tlog : ℚ → ℚ) (model : VEncodedInput → List ℚ)
    (colNames : List String) (metadata : List VRow) (has_header : Bool)
    (delim : String) (threshold : ℚ) (save_every max_steps : Option Nat)
    (topk : Nat) (keep_corrupted : Bool) (id_1 id_0 : Nat)
    (tmodel : List Nat → List ℚ) (tmeta : List TRow) :
    (threshold = 1 →
      vision_filter tlog model colNames metadata has_header delim threshold
          save_every max_steps topk keep_corrupted id_1 id_0 = none ∧
      text_filter tlog tmodel colNames tmeta has_header delim threshold
          save_every max_steps topk id_1 id_0 = none) ∧
    (threshold ≠ 1 →
      vision_filter tlog model colNames metadata has_header delim threshold
          save_every max_steps topk keep_corrupted id_1 id_0 =
        vfLoop ⟨model, colNames, has_header, delim,
            tlog (threshold / (1 - threshold)), id_1, id_0, save_every,
            max_steps, topk, keep_corrupted⟩ metadata metadata vfInit ∧
      text_filter tlog tmodel colNames tmeta has_header delim threshold
          save_every max_steps topk id_1 id_0 =
        tfLoop ⟨tmodel, colNames, has_header, delim,
            tlog (threshold / (1 - threshold)), id_1, id_0, save_every,
            max_steps, topk⟩ tmeta tmeta tfInit) := by
  constructor
  · intro h
    subst h
    constructor
    · unfold vision_filter
      rw [if_pos (by norm_num)]
    · unfold text_filter
      rw [if_pos (by norm_num)]
  · intro h
    have h0 : ¬ (1 - threshold = 0) := by
      intro hc
      exact h (by linarith)
    constructor
    · unfold vision_filter
      rw [if_neg h0]
    · unfold text_filter
      rw [if_neg h0]

/-- C9 counterexample: `threshold = 0` lies outside `(0, 1)`, yet the vision
run returns normally and the classifier is invoked for two rows — the run is
not aborted before classification. -/
theorem threshold_abort_cex :
    ¬ ((0 : ℚ) < 0 ∧ (0 : ℚ) < 1) ∧
    (vision_filter (fun q => q) exModel ["cap", "img"] exRows true "\t" 0
        (some 2) (some 3) 1 false 0 1).map VFState.classifier_calls = some 2 ∧
    (2 : Nat) ≠ 0 := by
  refine ⟨by norm_num, ?_, by norm_num⟩
  with_unfolding_all decide

/-- C9 witness: the amended theorem at `threshold = 1` (aborts) on the
concrete fixtures. -/
theorem threshold_abort_witness :
    vision_filter (fun q => q) exModel ["cap", "img"] exRows true "\t" 1
        (some 2) (some 3) 1 false 0 1 = none ∧
    text_filter (fun q => q) exTModel ["cap"] exTRows true "\t" 1
        (some 2) (some 3) 1 0 1 = none :=
  (threshold_abort_amended (fun q => q) exModel ["cap", "img"] exRows true "\t" 1
    (some 2) (some 3) 1 false 0 1 exTModel exTRows).1 rfl

end MllmFilter